import Mathlib

/-!
# Verification of the pairs-trading core of `Trader.py`

This file gives a shallow embedding of the core of the repository's
`Trader.py` — the cointegration pair scan (`find_cointegrated_pairs`,
`safe_price`), the spread model (`compute_spread`) and the backtest state
machine (`backtest_pair`) — and proves the specification's claims about it.

Modelling conventions:

* Python floats are modelled by the elements of an arbitrary
  `LinearOrderedField` (instantiated at `ℚ` in concrete witnesses).
* Timestamps are modelled by their position in the (chronologically sorted,
  duplicate-free) series, i.e. by `Nat` indices; `spread.index[i]` is `i`.
* `pandas` NaN values (which arise in `backtest_pair` exactly when
  `spread.std()` is zero or the series is too short, making every z-score
  NaN) are modelled by `Option`: a z-score entry is `none` when the Python
  value is NaN, and every float comparison with NaN is `false`, which is
  exactly IEEE-754 comparison semantics (`nanGt`, `nanLt` below).
* `spread.std()` is `sqrt` of the `ddof=1` sample variance.  The square
  root is irrational on ℚ, so the pipeline is parametrised by the square
  root function `sq : α → α`; theorems constrain `sq` only by the
  properties of the real square root they need (e.g. `sq 0 = 0`), and
  witnesses instantiate `sq` with a concrete function agreeing with the
  real square root on the (rational) values actually reached.
-/

/-- Direction label of a completed trade: the `'position'` field of the
trade dict in `backtest_pair` is the string `'LONG'` or `'SHORT'`. -/
inductive Side where
  | LONG : Side
  | SHORT : Side
deriving DecidableEq, Repr

/-- A completed trade record, mirroring the dict appended to `trades` in
`backtest_pair` (`Trader.py` lines 153–162 and 170–179).  Timestamps are
series indices; the z-score fields carry the NaN-modelling `Option`. -/
structure Trade (α : Type) where
  entry_date : Nat
  exit_date : Nat
  position : Side
  entry_spread : α
  exit_spread : α
  profit : α
  entry_z : Option α
  exit_z : Option α
deriving DecidableEq, Repr

/-- The mutable state threaded through the loop of `backtest_pair`
(`Trader.py` lines 128–136): the position flag (`0` flat, `1` long spread,
`-1` short spread), the running capital, the capital trajectory `pnl`, the
trade ledger, and the entry context (`entry_price`, `entry_date`, both
`None` while flat). -/
structure BTState (α : Type) where
  position : Int
  capital : α
  pnl : List α
  trades : List (Trade α)
  entry_price : Option α
  entry_date : Option Nat
deriving DecidableEq, Repr

/-- Comparison `x > c` for a possibly-NaN float `x`: any comparison with
NaN is `false`.  Models `z.iloc[i] > threshold` in `backtest_pair`. -/
def nanGt {α : Type} [LinearOrderedField α] : Option α → α → Bool
  | none, _ => false
  | some v, c => decide (c < v)

/-- Comparison `x < c` for a possibly-NaN float `x`: any comparison with
NaN is `false`.  Models `z.iloc[i] < threshold` in `backtest_pair`. -/
def nanLt {α : Type} [LinearOrderedField α] : Option α → α → Bool
  | none, _ => false
  | some v, c => decide (v < c)

/-- The trading-logic section of one iteration of the loop of
`backtest_pair` (`Trader.py` lines 139–182), i.e. the `if`/`elif` dispatch
on `position`, *without* the trailing `pnl.append(capital)`:

* flat and `z.iloc[i] > entry_z`: enter a short spread, recording the
  entry spread value and entry timestamp;
* flat and `z.iloc[i] < -entry_z`: enter a long spread, likewise;
* long and `z.iloc[i] > -exit_z`: realize
  `(spread.iloc[i] - entry_price) * (size / std)`, append a LONG `Trade`,
  clear the entry context;
* short and `z.iloc[i] < exit_z`: realize
  `(entry_price - spread.iloc[i]) * (size / std)`, append a SHORT `Trade`,
  clear the entry context;
* otherwise the state is unchanged. -/
def btCore {α : Type} [LinearOrderedField α] (spread : List α) (z : List (Option α))
    (std size entry_z exit_z : α) (s : BTState α) (i : Nat) : BTState α :=
  let zi := z.getD i none
  if s.position = 0 then
    if nanGt zi entry_z = true then
      { s with position := -1, entry_price := some (spread.getD i 0), entry_date := some i }
    else if nanLt zi (-entry_z) = true then
      { s with position := 1, entry_price := some (spread.getD i 0), entry_date := some i }
    else s
  else if s.position = 1 ∧ nanGt zi (-exit_z) = true then
    let profit := (spread.getD i 0 - s.entry_price.getD 0) * (size / std)
    let tr : Trade α :=
      { entry_date := s.entry_date.getD 0, exit_date := i, position := Side.LONG,
        entry_spread := s.entry_price.getD 0, exit_spread := spread.getD i 0,
        profit := profit, entry_z := z.getD (s.entry_date.getD 0) none, exit_z := zi }
    { position := 0, capital := s.capital + profit, pnl := s.pnl,
      trades := s.trades ++ [tr], entry_price := none, entry_date := none }
  else if s.position = -1 ∧ nanLt zi exit_z = true then
    let profit := (s.entry_price.getD 0 - spread.getD i 0) * (size / std)
    let tr : Trade α :=
      { entry_date := s.entry_date.getD 0, exit_date := i, position := Side.SHORT,
        entry_spread := s.entry_price.getD 0, exit_spread := spread.getD i 0,
        profit := profit, entry_z := z.getD (s.entry_date.getD 0) none, exit_z := zi }
    { position := 0, capital := s.capital + profit, pnl := s.pnl,
      trades := s.trades ++ [tr], entry_price := none, entry_date := none }
  else s

/-- One full iteration of the loop of `backtest_pair`: the trading logic
followed by `pnl.append(capital)` (`Trader.py` line 184). -/
def btStep {α : Type} [LinearOrderedField α] (spread : List α) (z : List (Option α))
    (std size entry_z exit_z : α) (s : BTState α) (i : Nat) : BTState α :=
  let t := btCore spread z std size entry_z exit_z s i
  { t with pnl := t.pnl ++ [t.capital] }

/-- The state just before the loop of `backtest_pair` starts
(`Trader.py` lines 128–136): flat position, `pnl = [cash]`,
`capital = cash`, empty ledger, no entry context. -/
def btInit {α : Type} [LinearOrderedField α] (cash : α) : BTState α :=
  { position := 0, capital := cash, pnl := [cash], trades := [],
    entry_price := none, entry_date := none }

/-- The state of `backtest_pair` after the loop has processed the steps
`i = 1, …, t` (with `size = cash * 0.1`, `Trader.py` line 131). -/
def btRunUpTo {α : Type} [LinearOrderedField α] (spread : List α) (z : List (Option α))
    (std cash entry_z exit_z : α) (t : Nat) : BTState α :=
  (List.range' 1 t).foldl (btStep spread z std (cash * (1/10)) entry_z exit_z) (btInit cash)

/-- The final state of the loop of `backtest_pair`:
`for i in range(1, len(z))` processes the steps `1, …, len(z) - 1`. -/
def btRun {α : Type} [LinearOrderedField α] (spread : List α) (z : List (Option α))
    (std cash entry_z exit_z : α) : BTState α :=
  btRunUpTo spread z std cash entry_z exit_z (z.length - 1)

/-- Series mean as `pandas` computes it: sum divided by length. -/
def listMean {α : Type} [LinearOrderedField α] (l : List α) : α :=
  l.sum / (l.length : α)

/-- Sample variance (`ddof=1`) as `pandas` computes it, the square of
`spread.std()`:
`Σ (v - mean)² / (n - 1)`. -/
def sampleVar {α : Type} [LinearOrderedField α] (l : List α) : α :=
  ((l.map (fun v => (v - listMean l) ^ 2)).sum) / ((l.length : α) - 1)

/-- The slope coefficient of the OLS regression of `y` on `x` with an
intercept term, `model.params[1]` in `compute_spread` (`Trader.py`
lines 93–95): for a non-degenerate regressor this is
`(n·Σxy − Σx·Σy) / (n·Σx² − (Σx)²)`. -/
def olsBeta {α : Type} [LinearOrderedField α] (x y : List α) : α :=
  ((x.length : α) * (List.zipWith (· * ·) x y).sum - x.sum * y.sum) /
    ((x.length : α) * (x.map (fun v => v ^ 2)).sum - x.sum ^ 2)

/-- Embedding of `compute_spread` (`Trader.py` lines 92–97): fit OLS of `y` on `x` with
intercept, take the slope `beta`, and return the pointwise spread
`y - beta * x` together with `beta`. -/
def compute_spread {α : Type} [LinearOrderedField α] (x y : List α) : List α × α :=
  let beta := olsBeta x y
  (List.zipWith (fun a b => b - beta * a) x y, beta)

/-- The z-score series `(spread - spread.mean()) / spread.std()`
(`Trader.py` line 126).  When `spread.std()` is zero (constant spread) or
NaN (fewer than two observations) every entry is NaN, modelled as `none`;
otherwise `z_t = (spread_t - mean) / std`. -/
def zScores {α : Type} [LinearOrderedField α] (spread : List α) (sd : α) :
    List (Option α) :=
  if sd = 0 ∨ spread.length < 2 then spread.map (fun _ => none)
  else spread.map (fun v => some ((v - listMean spread) / sd))

/-- The spread series computed by `backtest_pair` from its inputs. -/
def pipeSpread {α : Type} [LinearOrderedField α] (x y : List α) : List α :=
  (compute_spread x y).1

/-- Value of `spread.std()` in `backtest_pair`, as the abstract square root `sq`
of the sample variance of the spread. -/
def pipeSd {α : Type} [LinearOrderedField α] (sq : α → α) (x y : List α) : α :=
  sq (sampleVar (pipeSpread x y))

/-- The z-score series computed by `backtest_pair` from its inputs. -/
def pipeZ {α : Type} [LinearOrderedField α] (sq : α → α) (x y : List α) :
    List (Option α) :=
  zScores (pipeSpread x y) (pipeSd sq x y)

/-- The final loop state of `backtest_pair` on inputs `x`, `y`. -/
def pipeRun {α : Type} [LinearOrderedField α] (sq : α → α) (x y : List α)
    (cash entry_z exit_z : α) : BTState α :=
  btRun (pipeSpread x y) (pipeZ sq x y) (pipeSd sq x y) cash entry_z exit_z

/-- Embedding of `backtest_pair` (`Trader.py` lines 124–186), parametrised by the
square-root function `sq` used for `spread.std()`: computes the spread and
hedge ratio via `compute_spread`, the whole-sample z-score series, runs
the trading loop, and returns
`(pnl, spread, z, beta, trades)`. -/
def backtest_pair {α : Type} [LinearOrderedField α] (sq : α → α) (x y : List α)
    (cash entry_z exit_z : α) :
    List α × List α × List (Option α) × α × List (Trade α) :=
  ((pipeRun sq x y cash entry_z exit_z).pnl, pipeSpread x y, pipeZ sq x y,
    (compute_spread x y).2, (pipeRun sq x y cash entry_z exit_z).trades)

/-- Invariant of the loop of `backtest_pair` after the steps `1, …, t`
have been processed: the position flag is one of `0`, `1`, `-1`; the
trajectory has `t + 1` entries whose `k`-th entry is the initial cash plus
the realized profits of the trades closed by step `k`; the running capital
is the initial cash plus all realized profits; the entry context is `none`
exactly when flat, and otherwise records the spread value at the (valid,
post-close) entry step; every ledger trade opened strictly before it
closed, closed within the processed steps, carries the spread values at
its entry/exit steps and the `(size / std)`-scaled profit; and the trades
are chronologically disjoint. -/
structure BTInv {α : Type} [LinearOrderedField α] (spread : List α) (z : List (Option α))
    (std cash : α) (t : Nat) (s : BTState α) : Prop where
  pos3 : s.position = 0 ∨ s.position = 1 ∨ s.position = -1
  pnl_len : s.pnl.length = t + 1
  pnl_last : s.pnl.getLastD 0 = s.capital
  pnl_at : ∀ k, k ≤ t → s.pnl.getD k 0
    = cash + ((s.trades.filter (fun tr => decide (tr.exit_date ≤ k))).map Trade.profit).sum
  cap_eq : s.capital = cash + (s.trades.map Trade.profit).sum
  flat_none : s.position = 0 → s.entry_price = none ∧ s.entry_date = none
  open_some : s.position ≠ 0 → ∃ d, s.entry_date = some d
    ∧ s.entry_price = some (spread.getD d 0) ∧ 1 ≤ d ∧ d ≤ t
    ∧ ∀ tr ∈ s.trades, tr.exit_date < d
  trades_wf : ∀ tr ∈ s.trades, 1 ≤ tr.entry_date ∧ tr.entry_date < tr.exit_date
    ∧ tr.exit_date ≤ t ∧ tr.entry_spread = spread.getD tr.entry_date 0
    ∧ tr.exit_spread = spread.getD tr.exit_date 0
    ∧ (tr.position = Side.LONG →
        tr.profit = (tr.exit_spread - tr.entry_spread) * (cash * (1/10) / std))
    ∧ (tr.position = Side.SHORT →
        tr.profit = (tr.entry_spread - tr.exit_spread) * (cash * (1/10) / std))
  trades_sep : List.Pairwise (fun a b => a.exit_date < b.entry_date) s.trades

/-! ## The cointegration pair scan -/

/-- A per-instrument price table as the scan sees it: the two price
columns `safe_price` looks for ("adj close", then "close"), each an
optionally-present time-indexed series.  A series is a list of
`(timestamp, price)` rows with strictly increasing timestamps and no
missing values (`dropna` is the identity on such a series). -/
structure Frame (α : Type) where
  adjClose : Option (List (Nat × α))
  close : Option (List (Nat × α))
deriving Repr

instance {α : Type} : Inhabited (Frame α) where
  default := ⟨none, none⟩

/-- Embedding of `safe_price` (`Trader.py` lines 50–56): return the "adj close" column
if present, else the "close" column, else raise `KeyError` — modelled as
`Except.error ()`. -/
def safe_price {α : Type} (f : Frame α) : Except Unit (List (Nat × α)) :=
  match f.adjClose with
  | some s => .ok s
  | none =>
    match f.close with
    | some s => .ok s
    | none => .error ()

/-- Embedding of `pd.concat([s_a, s_b], axis=1).dropna()` (`Trader.py` line 71): the
inner join of two series on their timestamps, in the (sorted) timestamp
order of the first series. -/
def alignSeries {α : Type} (a b : List (Nat × α)) : List (α × α) :=
  a.filterMap fun p => (b.lookup p.1).map fun v => (p.2, v)

/-- The residual series of the OLS regression of `y` on `x` with
intercept (`model.resid`, `Trader.py` lines 75–77):
`resid_i = y_i − (α̂ + β̂·x_i)` with `α̂ = mean y − β̂·mean x`. -/
def olsResid {α : Type} [LinearOrderedField α] (x y : List α) : List α :=
  List.zipWith (fun a b => b - ((listMean y - olsBeta x y * listMean x)
    + olsBeta x y * a)) x y

/-- Ascending sort of the candidate list by p-value
(`candidates.sort(key=lambda x: x[2])`, `Trader.py` line 85): Python's
sort is stable, and any stable sort by the same key produces the same
output, so insertion sort models it faithfully. -/
def sortCands {α : Type} [LinearOrderedField α] (l : List (String × String × α)) :
    List (String × String × α) :=
  l.insertionSort (fun a b => a.2.2 ≤ b.2.2)

/-- The doubly-nested candidate loop of `find_cointegrated_pairs`
(`Trader.py` lines 67–84), flattened over the ordered list of index pairs
`(i, j)` with `i < j`.  For each pair: resolve both price series with
`safe_price` (a raised `KeyError` propagates and terminates the scan —
there is no handler); inner-join the series and `continue` when the
aligned length is below 250 (skipping the early-exit check, as `continue`
does); regress, take the ADF p-value of the residuals via the external
oracle `adfP`, and append a candidate when `p < significance`; then break
out of both loops as soon as `max_pairs ≤ len(candidates)`.  When the
pair list is exhausted the accumulated candidates are sorted by p-value
and returned. -/
def scanGo {α : Type} [LinearOrderedField α] (adfP : List α → α)
    (entries : List (String × Frame α)) (significance : α) (max_pairs : Nat) :
    List (Nat × Nat) → List (String × String × α) →
      Except Unit (List (String × String × α))
  | [], acc => .ok (sortCands acc)
  | (i, j) :: rest, acc =>
    match safe_price (entries.getD i default).2, safe_price (entries.getD j default).2 with
    | .error e, _ => .error e
    | .ok _, .error e => .error e
    | .ok sa, .ok sb =>
      let ab := alignSeries sa sb
      if ab.length < 250 then
        scanGo adfP entries significance max_pairs rest acc
      else
        let p := adfP (olsResid (ab.map Prod.fst) (ab.map Prod.snd))
        let acc' := if p < significance then
            acc ++ [((entries.getD i default).1, (entries.getD j default).1, p)]
          else acc
        if max_pairs ≤ acc'.length then .ok (sortCands acc')
        else scanGo adfP entries significance max_pairs rest acc'

/-- The enumeration order of `for i in range(n): for j in range(i+1, n)`:
all index pairs `(i, j)` with `i < j < n`, lexicographically. -/
def pairIndices (n : Nat) : List (Nat × Nat) :=
  (List.range n).flatMap fun i => (List.range' (i + 1) (n - (i + 1))).map fun j => (i, j)

/-- Embedding of `find_cointegrated_pairs` (`Trader.py` lines 62–86), with the
external `adfuller(resid)[1]` p-value modelled as the oracle `adfP` and
the dict `data_dict` as its (unique-keyed) list of entries. -/
def find_cointegrated_pairs {α : Type} [LinearOrderedField α] (adfP : List α → α)
    (entries : List (String × Frame α)) (significance : α) (max_pairs : Nat) :
    Except Unit (List (String × String × α)) :=
  scanGo adfP entries significance max_pairs (pairIndices entries.length) []

/-- A 250-observation constant price series on timestamps `0, …, 249`. -/
def serZ : List (Nat × ℚ) := (List.range 250).map (fun t => (t, 0))

/-- A frame whose adjusted-close column is `serZ`. -/
def frameZ : Frame ℚ := ⟨some serZ, none⟩

/-- A frame with a one-row adjusted-close column: every pair involving it
has an aligned sample far below the 250 minimum. -/
def frameG : Frame ℚ := ⟨some [(0, 0)], none⟩

/-- A frame with neither an adjusted-close nor a close column:
`safe_price` raises `KeyError` on it. -/
def frameBad : Frame ℚ := ⟨none, none⟩

/-! ## Characterization of one loop iteration -/

/-- Flat and `z_i > entry_z`: enter a short spread. -/
theorem btCore_flat_short {α : Type} [LinearOrderedField α] {spread : List α}
    {z : List (Option α)} {std size entry_z exit_z : α} {s : BTState α} {i : Nat}
    (h0 : s.position = 0) (hc : nanGt (z.getD i none) entry_z = true) :
    btCore spread z std size entry_z exit_z s i
      = { s with position := -1, entry_price := some (spread.getD i 0),
                 entry_date := some i } := by
  simp only [btCore, h0, hc, if_true, if_pos rfl]

/-- Flat, `z_i > entry_z` fails and `z_i < -entry_z`: enter a long spread. -/
theorem btCore_flat_long {α : Type} [LinearOrderedField α] {spread : List α}
    {z : List (Option α)} {std size entry_z exit_z : α} {s : BTState α} {i : Nat}
    (h0 : s.position = 0) (hng : nanGt (z.getD i none) entry_z = false)
    (hc : nanLt (z.getD i none) (-entry_z) = true) :
    btCore spread z std size entry_z exit_z s i
      = { s with position := 1, entry_price := some (spread.getD i 0),
                 entry_date := some i } := by
  simp only [btCore, h0, hng, hc, if_pos rfl]
  simp

/-- Flat and neither entry condition holds: state unchanged. -/
theorem btCore_flat_stay {α : Type} [LinearOrderedField α] {spread : List α}
    {z : List (Option α)} {std size entry_z exit_z : α} {s : BTState α} {i : Nat}
    (h0 : s.position = 0) (hng : nanGt (z.getD i none) entry_z = false)
    (hnl : nanLt (z.getD i none) (-entry_z) = false) :
    btCore spread z std size entry_z exit_z s i = s := by
  simp only [btCore, h0, hng, hnl, if_pos rfl]
  simp

/-- Long and `z_i > -exit_z`: close the long spread, realizing
`(spread_i - entry_price) * (size / std)`. -/
theorem btCore_long_close {α : Type} [LinearOrderedField α] {spread : List α}
    {z : List (Option α)} {std size entry_z exit_z : α} {s : BTState α} {i : Nat}
    (h1 : s.position = 1) (hc : nanGt (z.getD i none) (-exit_z) = true) :
    btCore spread z std size entry_z exit_z s i
      = ⟨0, s.capital + (spread.getD i 0 - s.entry_price.getD 0) * (size / std), s.pnl,
          s.trades ++ [⟨s.entry_date.getD 0, i, Side.LONG, s.entry_price.getD 0,
            spread.getD i 0, (spread.getD i 0 - s.entry_price.getD 0) * (size / std),
            z.getD (s.entry_date.getD 0) none, z.getD i none⟩],
          none, none⟩ := by
  simp only [btCore, h1, hc]
  simp

/-- Long and the exit condition fails: state unchanged. -/
theorem btCore_long_stay {α : Type} [LinearOrderedField α] {spread : List α}
    {z : List (Option α)} {std size entry_z exit_z : α} {s : BTState α} {i : Nat}
    (h1 : s.position = 1) (hc : nanGt (z.getD i none) (-exit_z) = false) :
    btCore spread z std size entry_z exit_z s i = s := by
  simp only [btCore, h1, hc]
  simp

/-- Short and `z_i < exit_z`: close the short spread, realizing
`(entry_price - spread_i) * (size / std)`. -/
theorem btCore_short_close {α : Type} [LinearOrderedField α] {spread : List α}
    {z : List (Option α)} {std size entry_z exit_z : α} {s : BTState α} {i : Nat}
    (h1 : s.position = -1) (hc : nanLt (z.getD i none) exit_z = true) :
    btCore spread z std size entry_z exit_z s i
      = ⟨0, s.capital + (s.entry_price.getD 0 - spread.getD i 0) * (size / std), s.pnl,
          s.trades ++ [⟨s.entry_date.getD 0, i, Side.SHORT, s.entry_price.getD 0,
            spread.getD i 0, (s.entry_price.getD 0 - spread.getD i 0) * (size / std),
            z.getD (s.entry_date.getD 0) none, z.getD i none⟩],
          none, none⟩ := by
  simp only [btCore, h1, hc]
  simp

/-- Short and the exit condition fails: state unchanged. -/
theorem btCore_short_stay {α : Type} [LinearOrderedField α] {spread : List α}
    {z : List (Option α)} {std size entry_z exit_z : α} {s : BTState α} {i : Nat}
    (h1 : s.position = -1) (hc : nanLt (z.getD i none) exit_z = false) :
    btCore spread z std size entry_z exit_z s i = s := by
  simp only [btCore, h1, hc]
  simp

/-- Unfolding one loop iteration of `btRunUpTo`. -/
theorem btRunUpTo_succ {α : Type} [LinearOrderedField α] (spread : List α)
    (z : List (Option α)) (std cash entry_z exit_z : α) (t : Nat) :
    btRunUpTo spread z std cash entry_z exit_z (t + 1)
      = btStep spread z std (cash * (1/10)) entry_z exit_z
          (btRunUpTo spread z std cash entry_z exit_z t) (t + 1) := by
  unfold btRunUpTo
  rw [List.range'_concat, List.foldl_append]
  simp [Nat.add_comm]

/-! ## The loop invariant -/

/-- Reading the appended element of a list at index `length`. -/
theorem getD_concat_length {α : Type} (l : List α) (x d : α) :
    (l ++ [x]).getD l.length d = x := by
  rw [List.getD_eq_getElem?_getD, List.getElem?_append_right (le_refl _)]
  simp

/-- The invariant extends through an iteration that only appends to the
trajectory and leaves the trading state unchanged. -/
theorem btInv_stay {α : Type} [LinearOrderedField α] {spread : List α} {z : List (Option α)}
    {std cash : α} {t : Nat} {s : BTState α} (h : BTInv spread z std cash t s) :
    BTInv spread z std cash (t + 1)
      ⟨s.position, s.capital, s.pnl ++ [s.capital], s.trades, s.entry_price, s.entry_date⟩ := by
  obtain ⟨pos3, pnl_len, pnl_last, pnl_at, cap_eq, flat_none, open_some, trades_wf,
    trades_sep⟩ := h
  refine ⟨pos3, by simp [pnl_len], by simp [List.getLastD_concat], ?_, cap_eq,
    flat_none, ?_, ?_, trades_sep⟩
  · intro k hk
    by_cases hk' : k ≤ t
    · rw [List.getD_append _ _ _ k (by omega)]
      exact pnl_at k hk'
    · have hke : k = t + 1 := by omega
      subst hke
      rw [← pnl_len, getD_concat_length]
      rw [List.filter_eq_self.mpr ?_]
      · exact cap_eq
      · intro tr htr
        have := (trades_wf tr htr).2.2.1
        simp only [decide_eq_true_eq]
        omega
  · intro hne
    obtain ⟨d, hd, hpr, hd1, hdt, hlt⟩ := open_some hne
    exact ⟨d, hd, hpr, hd1, by omega, hlt⟩
  · intro tr htr
    obtain ⟨w1, w2, w3, w4, w5, w6, w7⟩ := trades_wf tr htr
    exact ⟨w1, w2, by omega, w4, w5, w6, w7⟩

/-- The invariant extends through an iteration that opens a position at
step `t + 1`, recording the entry spread value and entry timestamp. -/
theorem btInv_enter {α : Type} [LinearOrderedField α] {spread : List α} {z : List (Option α)}
    {std cash : α} {t : Nat} {s : BTState α} (h : BTInv spread z std cash t s)
    (h0 : s.position = 0) (p : Int) (hp : p = 1 ∨ p = -1) :
    BTInv spread z std cash (t + 1)
      ⟨p, s.capital, s.pnl ++ [s.capital], s.trades,
        some (spread.getD (t + 1) 0), some (t + 1)⟩ := by
  obtain ⟨pos3, pnl_len, pnl_last, pnl_at, cap_eq, flat_none, open_some, trades_wf,
    trades_sep⟩ := h
  refine ⟨?_, by simp [pnl_len], by simp [List.getLastD_concat], ?_, cap_eq, ?_, ?_, ?_,
    trades_sep⟩
  · rcases hp with hp | hp
    · exact Or.inr (Or.inl hp)
    · exact Or.inr (Or.inr hp)
  · intro k hk
    by_cases hk' : k ≤ t
    · rw [List.getD_append _ _ _ k (by omega)]
      exact pnl_at k hk'
    · have hke : k = t + 1 := by omega
      subst hke
      rw [← pnl_len, getD_concat_length]
      rw [List.filter_eq_self.mpr ?_]
      · exact cap_eq
      · intro tr htr
        have := (trades_wf tr htr).2.2.1
        simp only [decide_eq_true_eq]
        omega
  · intro hzero
    rcases hp with hp | hp <;> simp [hp] at hzero
  · intro _
    refine ⟨t + 1, rfl, rfl, by omega, le_refl _, ?_⟩
    intro tr htr
    have := (trades_wf tr htr).2.2.1
    omega
  · intro tr htr
    obtain ⟨w1, w2, w3, w4, w5, w6, w7⟩ := trades_wf tr htr
    exact ⟨w1, w2, by omega, w4, w5, w6, w7⟩

/-- The invariant extends through an iteration that closes the open
position at step `t + 1`, realizing its profit and appending its trade
record to the ledger. -/
theorem btInv_close {α : Type} [LinearOrderedField α] {spread : List α} {z : List (Option α)}
    {std cash : α} {t : Nat} {s : BTState α} (h : BTInv spread z std cash t s)
    (d : Nat) (hd1 : 1 ≤ d) (hdt : d ≤ t) (hlt : ∀ tr ∈ s.trades, tr.exit_date < d)
    (side : Side) (prof : α)
    (hprofL : side = Side.LONG →
      prof = (spread.getD (t + 1) 0 - spread.getD d 0) * (cash * (1/10) / std))
    (hprofS : side = Side.SHORT →
      prof = (spread.getD d 0 - spread.getD (t + 1) 0) * (cash * (1/10) / std)) :
    BTInv spread z std cash (t + 1)
      ⟨0, s.capital + prof, s.pnl ++ [s.capital + prof],
        s.trades ++ [⟨d, t + 1, side, spread.getD d 0, spread.getD (t + 1) 0, prof,
          z.getD d none, z.getD (t + 1) none⟩],
        none, none⟩ := by
  obtain ⟨pos3, pnl_len, pnl_last, pnl_at, cap_eq, flat_none, open_some, trades_wf,
    trades_sep⟩ := h
  refine ⟨Or.inl rfl, by simp [pnl_len], by simp [List.getLastD_concat], ?_, ?_,
    fun _ => ⟨rfl, rfl⟩, ?_, ?_, ?_⟩
  · intro k hk
    by_cases hk' : k ≤ t
    · rw [List.getD_append _ _ _ k (by omega), List.filter_append]
      have hnew : List.filter (fun tr => decide (tr.exit_date ≤ k))
          [(⟨d, t + 1, side, spread.getD d 0, spread.getD (t + 1) 0, prof,
            z.getD d none, z.getD (t + 1) none⟩ : Trade α)] = [] := by
        simp only [List.filter_cons, List.filter_nil, decide_eq_true_eq]
        rw [if_neg (by omega)]
      rw [hnew, List.append_nil]
      exact pnl_at k hk'
    · have hke : k = t + 1 := by omega
      subst hke
      have hcl := getD_concat_length s.pnl (s.capital + prof) 0
      rw [pnl_len] at hcl
      rw [hcl, List.filter_eq_self.mpr ?_]
      · rw [cap_eq]
        simp only [List.map_append, List.sum_append, List.map_cons, List.map_nil,
          List.sum_cons, List.sum_nil]
        ring
      · intro tr htr
        simp only [decide_eq_true_eq]
        rcases List.mem_append.mp htr with htr | htr
        · have := (trades_wf tr htr).2.2.1
          omega
        · rw [List.mem_singleton] at htr
          subst htr
          exact Nat.le_refl _
  · rw [cap_eq]
    simp only [List.map_append, List.sum_append, List.map_cons, List.map_nil,
      List.sum_cons, List.sum_nil]
    ring
  · intro hzero
    exact absurd rfl hzero
  · intro tr htr
    rcases List.mem_append.mp htr with htr | htr
    · obtain ⟨w1, w2, w3, w4, w5, w6, w7⟩ := trades_wf tr htr
      exact ⟨w1, w2, by omega, w4, w5, w6, w7⟩
    · rw [List.mem_singleton] at htr
      subst htr
      refine ⟨hd1, show d < t + 1 by omega, Nat.le_refl _, rfl, rfl, ?_, ?_⟩
      · intro hs
        exact hprofL hs
      · intro hs
        exact hprofS hs
  · rw [List.pairwise_append]
    refine ⟨trades_sep, List.pairwise_singleton _ _, ?_⟩
    intro a ha b hb
    simp at hb
    subst hb
    exact hlt a ha

/-- One loop iteration of `backtest_pair` preserves the invariant. -/
theorem btStep_inv {α : Type} [LinearOrderedField α] {spread : List α} {z : List (Option α)}
    {std cash entry_z exit_z : α} {t : Nat} {s : BTState α}
    (h : BTInv spread z std cash t s) :
    BTInv spread z std cash (t + 1)
      (btStep spread z std (cash * (1/10)) entry_z exit_z s (t + 1)) := by
  rcases h.pos3 with hp | hp | hp
  · by_cases hg : nanGt (z.getD (t + 1) none) entry_z = true
    · simp only [btStep]
      rw [btCore_flat_short hp hg]
      exact btInv_enter h hp (-1) (Or.inr rfl)
    · have hg' : nanGt (z.getD (t + 1) none) entry_z = false := by
        simpa using hg
      by_cases hl : nanLt (z.getD (t + 1) none) (-entry_z) = true
      · simp only [btStep]
        rw [btCore_flat_long hp hg' hl]
        exact btInv_enter h hp 1 (Or.inl rfl)
      · have hl' : nanLt (z.getD (t + 1) none) (-entry_z) = false := by
          simpa using hl
        simp only [btStep]
        rw [btCore_flat_stay hp hg' hl']
        exact btInv_stay h
  · by_cases hg : nanGt (z.getD (t + 1) none) (-exit_z) = true
    · obtain ⟨d, hd, hpr, hd1, hdt, hlt⟩ := h.open_some (by rw [hp]; decide)
      simp only [btStep]
      rw [btCore_long_close hp hg, hd, hpr]
      simp only [Option.getD_some]
      exact btInv_close h d hd1 hdt hlt Side.LONG _ (fun _ => rfl) (fun hs => by cases hs)
    · have hg' : nanGt (z.getD (t + 1) none) (-exit_z) = false := by
        simpa using hg
      simp only [btStep]
      rw [btCore_long_stay hp hg']
      exact btInv_stay h
  · by_cases hl : nanLt (z.getD (t + 1) none) exit_z = true
    · obtain ⟨d, hd, hpr, hd1, hdt, hlt⟩ := h.open_some (by rw [hp]; decide)
      simp only [btStep]
      rw [btCore_short_close hp hl, hd, hpr]
      simp only [Option.getD_some]
      exact btInv_close h d hd1 hdt hlt Side.SHORT _ (fun hs => by cases hs) (fun _ => rfl)
    · have hl' : nanLt (z.getD (t + 1) none) exit_z = false := by
        simpa using hl
      simp only [btStep]
      rw [btCore_short_stay hp hl']
      exact btInv_stay h

/-- The loop invariant holds at every step of the loop of
`backtest_pair`. -/
theorem btInv_holds {α : Type} [LinearOrderedField α] (spread : List α) (z : List (Option α))
    (std cash entry_z exit_z : α) (t : Nat) :
    BTInv spread z std cash t (btRunUpTo spread z std cash entry_z exit_z t) := by
  induction t with
  | zero =>
    refine ⟨Or.inl rfl, rfl, rfl, ?_, by simp [btRunUpTo, btInit], fun _ => ⟨rfl, rfl⟩,
      fun hne => absurd rfl hne, by simp [btRunUpTo, btInit], List.Pairwise.nil⟩
    intro k hk
    have hk0 : k = 0 := by omega
    subst hk0
    simp [btRunUpTo, btInit]
  | succ t ih =>
    rw [btRunUpTo_succ]
    exact btStep_inv ih

/-! ## Claim C1: the transition table of the backtest state machine -/

/-- C1: For every z-score series and every step `t + 1` from the second
observation onward, the backtest state machine of `backtest_pair` makes
exactly these transitions and no others: from FLAT (`position = 0`) it
moves to SHORT_SPREAD (`position = -1`) when `z_t > entry_z`, recording
the entry spread value and entry timestamp; from FLAT to LONG_SPREAD
(`position = 1`) when `z_t < -entry_z`; from LONG_SPREAD to FLAT when
`z_t > -exit_z`, realizing profit and appending a `Trade`; from
SHORT_SPREAD to FLAT when `z_t < exit_z`; and in every other case the
position, capital, ledger and entry context persist unchanged. -/
theorem C1_transitions {α : Type} [LinearOrderedField α] (spread : List α)
    (z : List (Option α)) (std cash entry_z exit_z : α) (t : Nat) (v : α)
    (hb : t + 1 ≤ z.length - 1) (hz : z.getD (t + 1) none = some v)
    (he : 0 ≤ entry_z) :
    ((btRunUpTo spread z std cash entry_z exit_z t).position = 0 ∧ entry_z < v →
      (btRunUpTo spread z std cash entry_z exit_z (t + 1)).position = -1
      ∧ (btRunUpTo spread z std cash entry_z exit_z (t + 1)).entry_price
          = some (spread.getD (t + 1) 0)
      ∧ (btRunUpTo spread z std cash entry_z exit_z (t + 1)).entry_date = some (t + 1)
      ∧ (btRunUpTo spread z std cash entry_z exit_z (t + 1)).trades
          = (btRunUpTo spread z std cash entry_z exit_z t).trades
      ∧ (btRunUpTo spread z std cash entry_z exit_z (t + 1)).capital
          = (btRunUpTo spread z std cash entry_z exit_z t).capital)
    ∧ ((btRunUpTo spread z std cash entry_z exit_z t).position = 0 ∧ v < -entry_z →
      (btRunUpTo spread z std cash entry_z exit_z (t + 1)).position = 1
      ∧ (btRunUpTo spread z std cash entry_z exit_z (t + 1)).entry_price
          = some (spread.getD (t + 1) 0)
      ∧ (btRunUpTo spread z std cash entry_z exit_z (t + 1)).entry_date = some (t + 1)
      ∧ (btRunUpTo spread z std cash entry_z exit_z (t + 1)).trades
          = (btRunUpTo spread z std cash entry_z exit_z t).trades
      ∧ (btRunUpTo spread z std cash entry_z exit_z (t + 1)).capital
          = (btRunUpTo spread z std cash entry_z exit_z t).capital)
    ∧ ((btRunUpTo spread z std cash entry_z exit_z t).position = 1 ∧ -exit_z < v →
      (btRunUpTo spread z std cash entry_z exit_z (t + 1)).position = 0
      ∧ ∃ tr, (btRunUpTo spread z std cash entry_z exit_z (t + 1)).trades
          = (btRunUpTo spread z std cash entry_z exit_z t).trades ++ [tr]
        ∧ (btRunUpTo spread z std cash entry_z exit_z (t + 1)).capital
          = (btRunUpTo spread z std cash entry_z exit_z t).capital + tr.profit)
    ∧ ((btRunUpTo spread z std cash entry_z exit_z t).position = -1 ∧ v < exit_z →
      (btRunUpTo spread z std cash entry_z exit_z (t + 1)).position = 0
      ∧ ∃ tr, (btRunUpTo spread z std cash entry_z exit_z (t + 1)).trades
          = (btRunUpTo spread z std cash entry_z exit_z t).trades ++ [tr]
        ∧ (btRunUpTo spread z std cash entry_z exit_z (t + 1)).capital
          = (btRunUpTo spread z std cash entry_z exit_z t).capital + tr.profit)
    ∧ ((btRunUpTo spread z std cash entry_z exit_z t).position = 0
        ∧ ¬ entry_z < v ∧ ¬ v < -entry_z →
      (btRunUpTo spread z std cash entry_z exit_z (t + 1)).position
          = (btRunUpTo spread z std cash entry_z exit_z t).position
      ∧ (btRunUpTo spread z std cash entry_z exit_z (t + 1)).capital
          = (btRunUpTo spread z std cash entry_z exit_z t).capital
      ∧ (btRunUpTo spread z std cash entry_z exit_z (t + 1)).trades
          = (btRunUpTo spread z std cash entry_z exit_z t).trades
      ∧ (btRunUpTo spread z std cash entry_z exit_z (t + 1)).entry_price
          = (btRunUpTo spread z std cash entry_z exit_z t).entry_price
      ∧ (btRunUpTo spread z std cash entry_z exit_z (t + 1)).entry_date
          = (btRunUpTo spread z std cash entry_z exit_z t).entry_date)
    ∧ ((btRunUpTo spread z std cash entry_z exit_z t).position = 1 ∧ ¬ -exit_z < v →
      (btRunUpTo spread z std cash entry_z exit_z (t + 1)).position
          = (btRunUpTo spread z std cash entry_z exit_z t).position
      ∧ (btRunUpTo spread z std cash entry_z exit_z (t + 1)).capital
          = (btRunUpTo spread z std cash entry_z exit_z t).capital
      ∧ (btRunUpTo spread z std cash entry_z exit_z (t + 1)).trades
          = (btRunUpTo spread z std cash entry_z exit_z t).trades
      ∧ (btRunUpTo spread z std cash entry_z exit_z (t + 1)).entry_price
          = (btRunUpTo spread z std cash entry_z exit_z t).entry_price
      ∧ (btRunUpTo spread z std cash entry_z exit_z (t + 1)).entry_date
          = (btRunUpTo spread z std cash entry_z exit_z t).entry_date)
    ∧ ((btRunUpTo spread z std cash entry_z exit_z t).position = -1 ∧ ¬ v < exit_z →
      (btRunUpTo spread z std cash entry_z exit_z (t + 1)).position
          = (btRunUpTo spread z std cash entry_z exit_z t).position
      ∧ (btRunUpTo spread z std cash entry_z exit_z (t + 1)).capital
          = (btRunUpTo spread z std cash entry_z exit_z t).capital
      ∧ (btRunUpTo spread z std cash entry_z exit_z (t + 1)).trades
          = (btRunUpTo spread z std cash entry_z exit_z t).trades
      ∧ (btRunUpTo spread z std cash entry_z exit_z (t + 1)).entry_price
          = (btRunUpTo spread z std cash entry_z exit_z t).entry_price
      ∧ (btRunUpTo spread z std cash entry_z exit_z (t + 1)).entry_date
          = (btRunUpTo spread z std cash entry_z exit_z t).entry_date) := by
  rw [btRunUpTo_succ]
  simp only [btStep]
  refine ⟨?_, ?_, ?_, ?_, ?_, ?_, ?_⟩
  · rintro ⟨hp, hv⟩
    have hg : nanGt (z.getD (t + 1) none) entry_z = true := by
      rw [hz]
      simpa [nanGt] using hv
    rw [btCore_flat_short hp hg]
    exact ⟨rfl, rfl, rfl, rfl, rfl⟩
  · rintro ⟨hp, hv⟩
    have hg : nanGt (z.getD (t + 1) none) entry_z = false := by
      rw [hz]
      simp only [nanGt, decide_eq_false_iff_not]
      intro hcon
      linarith
    have hl : nanLt (z.getD (t + 1) none) (-entry_z) = true := by
      rw [hz]
      simpa [nanLt] using hv
    rw [btCore_flat_long hp hg hl]
    exact ⟨rfl, rfl, rfl, rfl, rfl⟩
  · rintro ⟨hp, hv⟩
    have hg : nanGt (z.getD (t + 1) none) (-exit_z) = true := by
      rw [hz]
      simpa [nanGt] using hv
    rw [btCore_long_close hp hg]
    exact ⟨rfl, _, rfl, rfl⟩
  · rintro ⟨hp, hv⟩
    have hl : nanLt (z.getD (t + 1) none) exit_z = true := by
      rw [hz]
      simpa [nanLt] using hv
    rw [btCore_short_close hp hl]
    exact ⟨rfl, _, rfl, rfl⟩
  · rintro ⟨hp, hv1, hv2⟩
    have hg : nanGt (z.getD (t + 1) none) entry_z = false := by
      rw [hz]
      simpa [nanGt] using hv1
    have hl : nanLt (z.getD (t + 1) none) (-entry_z) = false := by
      rw [hz]
      simpa [nanLt] using hv2
    rw [btCore_flat_stay hp hg hl]
    exact ⟨rfl, rfl, rfl, rfl, rfl⟩
  · rintro ⟨hp, hv⟩
    have hg : nanGt (z.getD (t + 1) none) (-exit_z) = false := by
      rw [hz]
      simpa [nanGt] using hv
    rw [btCore_long_stay hp hg]
    exact ⟨rfl, rfl, rfl, rfl, rfl⟩
  · rintro ⟨hp, hv⟩
    have hl : nanLt (z.getD (t + 1) none) exit_z = false := by
      rw [hz]
      simpa [nanLt] using hv
    rw [btCore_short_stay hp hl]
    exact ⟨rfl, rfl, rfl, rfl, rfl⟩

/-! ## Claims C8 and C10: position and ledger invariants -/

/-- In a pairwise-related list, any two members are equal or related one
way or the other. -/
theorem pairwise_mem_rel {β : Type} {R : β → β → Prop} {l : List β}
    (h : List.Pairwise R l) {a b : β} (ha : a ∈ l) (hb : b ∈ l) :
    a = b ∨ R a b ∨ R b a := by
  induction l with
  | nil => cases ha
  | cons c l ih =>
    obtain ⟨hhead, htail⟩ := List.pairwise_cons.mp h
    rcases List.mem_cons.mp ha with rfl | ha'
    · rcases List.mem_cons.mp hb with rfl | hb'
      · exact Or.inl rfl
      · exact Or.inr (Or.inl (hhead b hb'))
    · rcases List.mem_cons.mp hb with rfl | hb'
      · exact Or.inr (Or.inr (hhead a ha'))
      · exact ih htail ha' hb'

/-- C8: At every step of the loop of `backtest_pair` the position flag is
exactly one of FLAT (`0`), LONG_SPREAD (`1`) or SHORT_SPREAD (`-1`) — a
single flag, so never simultaneously long and short — and the trades in
the ledger do not overlap: each trade's exit timestamp is strictly before
the next trade's entry timestamp. -/
theorem C8_position_and_no_overlap {α : Type} [LinearOrderedField α] (spread : List α)
    (z : List (Option α)) (std cash entry_z exit_z : α) (t : Nat) :
    ((btRunUpTo spread z std cash entry_z exit_z t).position = 0
      ∨ (btRunUpTo spread z std cash entry_z exit_z t).position = 1
      ∨ (btRunUpTo spread z std cash entry_z exit_z t).position = -1)
    ∧ List.Chain' (fun a b => a.exit_date < b.entry_date)
        (btRunUpTo spread z std cash entry_z exit_z t).trades := by
  have h := btInv_holds spread z std cash entry_z exit_z t
  exact ⟨h.pos3, h.trades_sep.chain'⟩

/-- C10: Every trade produced by the backtest has its entry timestamp
strictly before its exit timestamp: entry and exit are mutually exclusive
branches of the per-step dispatch, so a position opened at step `t` is
closed at the earliest at step `t + 1`. -/
theorem C10_entry_before_exit {α : Type} [LinearOrderedField α] (spread : List α)
    (z : List (Option α)) (std cash entry_z exit_z : α) :
    ∀ tr ∈ (btRun spread z std cash entry_z exit_z).trades,
      tr.entry_date < tr.exit_date := by
  intro tr htr
  exact ((btInv_holds spread z std cash entry_z exit_z (z.length - 1)).trades_wf
    tr htr).2.1

/-! ## Claims C2, C6 and C7: profits, trajectory and the capital identity -/

/-- C2: Every trade closed by `backtest_pair` realizes
`(spread_exit − spread_entry) × (size / std)` for a LONG close and
`(spread_entry − spread_exit) × (size / std)` for a SHORT close, where
`size = cash × 0.1` is fixed per trade and `std` is the whole-sample
standard deviation (`sq` of the sample variance) of the spread. -/
theorem C2_profit_formula {α : Type} [LinearOrderedField α] (sq : α → α) (x y : List α)
    (cash entry_z exit_z : α) :
    ∀ tr ∈ (backtest_pair sq x y cash entry_z exit_z).2.2.2.2,
      (tr.position = Side.LONG →
        tr.profit = (tr.exit_spread - tr.entry_spread)
          * (cash * (1/10) / sq (sampleVar (compute_spread x y).1)))
      ∧ (tr.position = Side.SHORT →
        tr.profit = (tr.entry_spread - tr.exit_spread)
          * (cash * (1/10) / sq (sampleVar (compute_spread x y).1))) := by
  intro tr htr
  have h := btInv_holds (pipeSpread x y) (pipeZ sq x y) (pipeSd sq x y) cash entry_z
    exit_z ((pipeZ sq x y).length - 1)
  have hw := h.trades_wf tr htr
  exact ⟨hw.2.2.2.2.2.1, hw.2.2.2.2.2.2⟩

/-- C7: The final value of the capital trajectory of `backtest_pair`
equals the initial capital plus the sum of the realized profits of all
trades in the returned ledger, exactly; and a position still open at the
end is not auto-closed: every ledger trade closed strictly before the open
position's entry step, so the open position has no ledger record. -/
theorem C7_final_capital {α : Type} [LinearOrderedField α] (sq : α → α) (x y : List α)
    (cash entry_z exit_z : α) :
    (backtest_pair sq x y cash entry_z exit_z).1.getLastD 0
      = cash + (((backtest_pair sq x y cash entry_z exit_z).2.2.2.2).map Trade.profit).sum
    ∧ ((pipeRun sq x y cash entry_z exit_z).position ≠ 0 →
        ∀ tr ∈ (backtest_pair sq x y cash entry_z exit_z).2.2.2.2,
          tr.exit_date < (pipeRun sq x y cash entry_z exit_z).entry_date.getD 0) := by
  have h := btInv_holds (pipeSpread x y) (pipeZ sq x y) (pipeSd sq x y) cash entry_z
    exit_z ((pipeZ sq x y).length - 1)
  constructor
  · exact h.pnl_last.trans h.cap_eq
  · intro hne tr htr
    obtain ⟨d, hd, _, _, _, hlt⟩ := h.open_some hne
    show tr.exit_date < (btRunUpTo (pipeSpread x y) (pipeZ sq x y) (pipeSd sq x y) cash
      entry_z exit_z ((pipeZ sq x y).length - 1)).entry_date.getD 0
    rw [hd]
    simpa using hlt tr htr

/-- C6: The capital trajectory of `backtest_pair` has one value per time
step of the z-score series, starts at the initial capital, changes only at
a step where a trade closes, and is constant between any trade's entry and
exit step (realized-only equity: no mark-to-market). -/
theorem C6_trajectory_shape {α : Type} [LinearOrderedField α] (sq : α → α) (x y : List α)
    (cash entry_z exit_z : α) (hlen : 1 ≤ (pipeZ sq x y).length) :
    (backtest_pair sq x y cash entry_z exit_z).1.length
      = (backtest_pair sq x y cash entry_z exit_z).2.2.1.length
    ∧ (backtest_pair sq x y cash entry_z exit_z).1.head? = some cash
    ∧ (∀ k, 1 ≤ k → k ≤ (pipeZ sq x y).length - 1 →
        (∀ tr ∈ (backtest_pair sq x y cash entry_z exit_z).2.2.2.2, tr.exit_date ≠ k) →
        (backtest_pair sq x y cash entry_z exit_z).1.getD k 0
          = (backtest_pair sq x y cash entry_z exit_z).1.getD (k - 1) 0)
    ∧ (∀ tr ∈ (backtest_pair sq x y cash entry_z exit_z).2.2.2.2, ∀ k,
        tr.entry_date ≤ k → k < tr.exit_date →
        (backtest_pair sq x y cash entry_z exit_z).1.getD k 0
          = (backtest_pair sq x y cash entry_z exit_z).1.getD tr.entry_date 0) := by
  have h := btInv_holds (pipeSpread x y) (pipeZ sq x y) (pipeSd sq x y) cash entry_z
    exit_z ((pipeZ sq x y).length - 1)
  refine ⟨?_, ?_, ?_, ?_⟩
  · show (btRunUpTo (pipeSpread x y) (pipeZ sq x y) (pipeSd sq x y) cash entry_z exit_z
      ((pipeZ sq x y).length - 1)).pnl.length = (pipeZ sq x y).length
    rw [h.pnl_len]
    omega
  · have h0 : (btRunUpTo (pipeSpread x y) (pipeZ sq x y) (pipeSd sq x y) cash entry_z
        exit_z ((pipeZ sq x y).length - 1)).pnl.getD 0 0 = cash := by
      rw [h.pnl_at 0 (Nat.zero_le _), List.filter_eq_nil.mpr ?_]
      · simp
      · intro tr htr
        have hw := h.trades_wf tr htr
        simp only [decide_eq_true_eq]
        omega
    have hne : (btRunUpTo (pipeSpread x y) (pipeZ sq x y) (pipeSd sq x y) cash entry_z
        exit_z ((pipeZ sq x y).length - 1)).pnl ≠ [] := by
      rw [← List.length_pos, h.pnl_len]
      omega
    obtain ⟨a, l', hpl⟩ := List.exists_cons_of_ne_nil hne
    show (btRunUpTo (pipeSpread x y) (pipeZ sq x y) (pipeSd sq x y) cash entry_z exit_z
      ((pipeZ sq x y).length - 1)).pnl.head? = some cash
    rw [hpl]
    rw [hpl, List.getD_cons_zero] at h0
    rw [h0]
    rfl
  · intro k hk1 hk2 hnone
    show (btRunUpTo (pipeSpread x y) (pipeZ sq x y) (pipeSd sq x y) cash entry_z exit_z
        ((pipeZ sq x y).length - 1)).pnl.getD k 0
      = (btRunUpTo (pipeSpread x y) (pipeZ sq x y) (pipeSd sq x y) cash entry_z exit_z
        ((pipeZ sq x y).length - 1)).pnl.getD (k - 1) 0
    rw [h.pnl_at k (by omega), h.pnl_at (k - 1) (by omega)]
    rw [List.filter_congr ?_]
    intro tr htr
    have hne := hnone tr htr
    simp only [decide_eq_decide]
    omega
  · intro tr htr k hk1 hk2
    have hw := h.trades_wf tr htr
    show (btRunUpTo (pipeSpread x y) (pipeZ sq x y) (pipeSd sq x y) cash entry_z exit_z
        ((pipeZ sq x y).length - 1)).pnl.getD k 0
      = (btRunUpTo (pipeSpread x y) (pipeZ sq x y) (pipeSd sq x y) cash entry_z exit_z
        ((pipeZ sq x y).length - 1)).pnl.getD tr.entry_date 0
    rw [h.pnl_at k (by omega), h.pnl_at tr.entry_date (by omega)]
    rw [List.filter_congr ?_]
    intro tr' htr'
    have hw' := h.trades_wf tr' htr'
    simp only [decide_eq_decide]
    rcases pairwise_mem_rel h.trades_sep htr' htr with heq | hrel | hrel
    · subst heq
      omega
    · omega
    · omega

/-! ## Claim C4: properties of the scan output -/

/-- Every index pair enumerated by the scan satisfies `i < j < n`. -/
theorem pairIndices_mem {n : Nat} {pq : Nat × Nat} (h : pq ∈ pairIndices n) :
    pq.1 < pq.2 ∧ pq.2 < n := by
  obtain ⟨i, hi, hmap⟩ := List.mem_flatMap.mp h
  obtain ⟨j, hj, rfl⟩ := List.mem_map.mp hmap
  rw [List.mem_range] at hi
  rw [List.mem_range'_1] at hj
  exact ⟨by omega, by omega⟩

/-- Conversely, every `i < j < n` is enumerated by the scan. -/
theorem pairIndices_mem_of {n i j : Nat} (hij : i < j) (hjn : j < n) :
    (i, j) ∈ pairIndices n := by
  apply List.mem_flatMap.mpr
  refine ⟨i, List.mem_range.mpr (by omega), List.mem_map.mpr ?_⟩
  exact ⟨j, List.mem_range'_1.mpr ⟨by omega, by omega⟩, rfl⟩

/-- Generic invariant of the scan loop: if every candidate the loop can
append satisfies `P`, the accumulator is below the early-exit bound and
its members satisfy `P`, then an `ok` result is sorted by p-value, has at
most `max_pairs` elements, and all its members satisfy `P`. -/
theorem scanGo_ok_props {α : Type} [LinearOrderedField α] (adfP : List α → α)
    (entries : List (String × Frame α)) (significance : α) (max_pairs : Nat)
    (P : String × String × α → Prop)
    (hP : ∀ i j sa sb, i < j → j < entries.length →
      safe_price (entries.getD i default).2 = .ok sa →
      safe_price (entries.getD j default).2 = .ok sb →
      ¬ (alignSeries sa sb).length < 250 →
      adfP (olsResid ((alignSeries sa sb).map Prod.fst)
        ((alignSeries sa sb).map Prod.snd)) < significance →
      P ((entries.getD i default).1, (entries.getD j default).1,
        adfP (olsResid ((alignSeries sa sb).map Prod.fst)
          ((alignSeries sa sb).map Prod.snd)))) :
    ∀ (ps : List (Nat × Nat)) (acc l : List (String × String × α)),
      acc.length < max_pairs →
      (∀ pq ∈ ps, pq.1 < pq.2 ∧ pq.2 < entries.length) →
      (∀ c ∈ acc, P c) →
      scanGo adfP entries significance max_pairs ps acc = .ok l →
      l.length ≤ max_pairs
      ∧ List.Sorted (fun a b : String × String × α => a.2.2 ≤ b.2.2) l
      ∧ ∀ c ∈ l, P c := by
  haveI hTot : IsTotal (String × String × α) (fun a b => a.2.2 ≤ b.2.2) :=
    ⟨fun a b => le_total _ _⟩
  haveI hTrans : IsTrans (String × String × α) (fun a b => a.2.2 ≤ b.2.2) :=
    ⟨fun _ _ _ h1 h2 => le_trans h1 h2⟩
  intro ps
  induction ps with
  | nil =>
    intro acc l hlen _ hacc hok
    simp only [scanGo, Except.ok.injEq] at hok
    subst hok
    have hperm := List.perm_insertionSort (fun a b : String × String × α => a.2.2 ≤ b.2.2) acc
    refine ⟨by rw [sortCands, hperm.length_eq]; omega, List.sorted_insertionSort _ _, ?_⟩
    intro c hc
    rw [sortCands] at hc
    exact hacc c (hperm.mem_iff.mp hc)
  | cons hd rest ih =>
    obtain ⟨i, j⟩ := hd
    intro acc l hlen hps hacc hok
    obtain ⟨hij, hjn⟩ := hps (i, j) (List.mem_cons_self _ _)
    have hrest : ∀ pq ∈ rest, pq.1 < pq.2 ∧ pq.2 < entries.length := by
      intro pq hpq
      exact hps pq (List.mem_cons_of_mem _ hpq)
    simp only [scanGo] at hok
    split at hok
    · exact absurd hok (by simp)
    · exact absurd hok (by simp)
    · rename_i sa sb hsa hsb
      by_cases hab : (alignSeries sa sb).length < 250
      · rw [if_pos hab] at hok
        exact ih acc l hlen hrest hacc hok
      · rw [if_neg hab] at hok
        by_cases hp : adfP (olsResid ((alignSeries sa sb).map Prod.fst)
            ((alignSeries sa sb).map Prod.snd)) < significance
        · rw [if_pos hp] at hok
          have hPc := hP i j sa sb hij hjn hsa hsb hab hp
          by_cases hstop : max_pairs ≤ (acc ++ [((entries.getD i default).1,
              (entries.getD j default).1, adfP (olsResid ((alignSeries sa sb).map Prod.fst)
                ((alignSeries sa sb).map Prod.snd)))]).length
          · rw [if_pos hstop] at hok
            simp only [Except.ok.injEq] at hok
            subst hok
            have hperm := List.perm_insertionSort
              (fun a b : String × String × α => a.2.2 ≤ b.2.2) (acc ++ [((entries.getD i
                default).1, (entries.getD j default).1, adfP (olsResid ((alignSeries sa
                sb).map Prod.fst) ((alignSeries sa sb).map Prod.snd)))])
            refine ⟨?_, List.sorted_insertionSort _ _, ?_⟩
            · rw [sortCands, hperm.length_eq]
              simp only [List.length_append, List.length_cons, List.length_nil]
              omega
            · intro c hc
              rw [sortCands] at hc
              rcases List.mem_append.mp (hperm.mem_iff.mp hc) with hc' | hc'
              · exact hacc c hc'
              · rw [List.mem_singleton] at hc'
                subst hc'
                exact hPc
          · rw [if_neg hstop] at hok
            refine ih _ l ?_ hrest ?_ hok
            · simp only [List.length_append, List.length_cons, List.length_nil] at hstop ⊢
              omega
            · intro c hc
              rcases List.mem_append.mp hc with hc' | hc'
              · exact hacc c hc'
              · rw [List.mem_singleton] at hc'
                subst hc'
                exact hPc
        · rw [if_neg hp] at hok
          rw [if_neg (by omega)] at hok
          exact ih acc l hlen hrest hacc hok

/-- C4 (amended: for `max_pairs ≥ 1`): an `ok` scan result is sorted
non-decreasing by p-value, has at most `max_pairs` candidates, and every
candidate comes from a pair `i < j` of the universe whose two resolved
price series align to at least 250 observations and whose residual
p-value is strictly below the significance threshold; pairs with shorter
aligned samples are skipped without error.  (With `max_pairs = 0` the
bound fails — see the counterexample — because the early-exit check runs
only after a candidate has been appended.) -/
theorem C4_scan_output {α : Type} [LinearOrderedField α] (adfP : List α → α)
    (entries : List (String × Frame α)) (significance : α) (max_pairs : Nat)
    (l : List (String × String × α)) (hmax : 1 ≤ max_pairs)
    (hok : find_cointegrated_pairs adfP entries significance max_pairs = .ok l) :
    List.Sorted (fun a b : String × String × α => a.2.2 ≤ b.2.2) l
    ∧ l.length ≤ max_pairs
    ∧ ∀ c ∈ l, c.2.2 < significance ∧ ∃ i j sa sb, i < j ∧ j < entries.length
        ∧ safe_price (entries.getD i default).2 = .ok sa
        ∧ safe_price (entries.getD j default).2 = .ok sb
        ∧ 250 ≤ (alignSeries sa sb).length
        ∧ c = ((entries.getD i default).1, (entries.getD j default).1,
            adfP (olsResid ((alignSeries sa sb).map Prod.fst)
              ((alignSeries sa sb).map Prod.snd))) := by
  have h := scanGo_ok_props adfP entries significance max_pairs
    (fun c => c.2.2 < significance ∧ ∃ i j sa sb, i < j ∧ j < entries.length
      ∧ safe_price (entries.getD i default).2 = .ok sa
      ∧ safe_price (entries.getD j default).2 = .ok sb
      ∧ 250 ≤ (alignSeries sa sb).length
      ∧ c = ((entries.getD i default).1, (entries.getD j default).1,
          adfP (olsResid ((alignSeries sa sb).map Prod.fst)
            ((alignSeries sa sb).map Prod.snd))))
    ?_ (pairIndices entries.length) [] l (by simp only [List.length_nil]; omega) ?_
    (by simp) hok
  · exact ⟨h.2.1, h.1, h.2.2⟩
  · intro i j sa sb hij hjn hsa hsb hab hp
    exact ⟨hp, i, j, sa, sb, hij, hjn, hsa, hsb, by omega, rfl⟩
  · intro pq hpq
    exact pairIndices_mem hpq

set_option maxRecDepth 100000 in
/-- C4, counterexample to the claim as stated: with `max_candidates = 0`
the scan can return one candidate — `len(candidates) >= max_pairs` is
checked only after a candidate has been appended — so the returned list
does not have at most `max_candidates` elements. -/
theorem C4_scan_counterexample :
    find_cointegrated_pairs (fun _ => (0 : ℚ)) [("A", frameZ), ("B", frameZ)] 1 0
      = .ok [("A", "B", 0)]
    ∧ ¬ ([(("A" : String), ("B" : String), (0 : ℚ))].length ≤ 0) := by
  constructor
  · rfl
  · decide

/-! ## Claim C5: a missing price field terminates the scan -/

/-- If instrument `k` has no resolvable price column and some enumerated
pair involves `k`, the scan loop either terminates with the propagated
`KeyError` or stops early (with exactly `max_pairs` candidates) before
reaching that pair; it never completes the enumeration skipping `k`. -/
theorem scanGo_bad_entry {α : Type} [LinearOrderedField α] (adfP : List α → α)
    (entries : List (String × Frame α)) (significance : α) (max_pairs : Nat) (k : Nat)
    (hbad : safe_price (entries.getD k default).2 = .error ()) :
    ∀ (ps : List (Nat × Nat)) (acc : List (String × String × α)),
      acc.length < max_pairs →
      (∃ pq ∈ ps, pq.1 = k ∨ pq.2 = k) →
      scanGo adfP entries significance max_pairs ps acc = .error ()
      ∨ ∃ l, scanGo adfP entries significance max_pairs ps acc = .ok l
          ∧ l.length = max_pairs := by
  intro ps
  induction ps with
  | nil =>
    intro acc _ hex
    simp at hex
  | cons hd rest ih =>
    obtain ⟨i, j⟩ := hd
    intro acc hlen hex
    by_cases hik : i = k
    · subst hik
      left
      simp only [scanGo]
      split
      · rfl
      · rfl
      · rename_i sa sb hsa hsb
        exact absurd (hbad.symm.trans hsa) (by simp)
    · by_cases hjk : j = k
      · subst hjk
        left
        simp only [scanGo]
        split
        · rfl
        · rfl
        · rename_i sa sb hsa hsb
          exact absurd (hbad.symm.trans hsb) (by simp)
      · have hex' : ∃ pq ∈ rest, pq.1 = k ∨ pq.2 = k := by
          rcases hex with ⟨pq, hpq, hk⟩
          rcases List.mem_cons.mp hpq with rfl | hmem
          · rcases hk with hk | hk
            · exact absurd hk hik
            · exact absurd hk hjk
          · exact ⟨pq, hmem, hk⟩
        simp only [scanGo]
        split
        · left
          rfl
        · left
          rfl
        · rename_i sa sb hsa hsb
          by_cases hab : (alignSeries sa sb).length < 250
          · rw [if_pos hab]
            exact ih acc hlen hex'
          · rw [if_neg hab]
            by_cases hp : adfP (olsResid ((alignSeries sa sb).map Prod.fst)
                ((alignSeries sa sb).map Prod.snd)) < significance
            · rw [if_pos hp]
              by_cases hstop : max_pairs ≤ (acc ++ [((entries.getD i default).1,
                  (entries.getD j default).1, adfP (olsResid ((alignSeries sa sb).map
                    Prod.fst) ((alignSeries sa sb).map Prod.snd)))]).length
              · rw [if_pos hstop]
                right
                refine ⟨_, rfl, ?_⟩
                rw [sortCands, (List.perm_insertionSort _ _).length_eq]
                simp only [List.length_append, List.length_cons, List.length_nil]
                  at hstop ⊢
                omega
              · rw [if_neg hstop]
                refine ih _ ?_ hex'
                simp only [List.length_append, List.length_cons, List.length_nil]
                  at hstop ⊢
                omega
            · rw [if_neg hp]
              rw [if_neg (by omega)]
              exact ih acc hlen hex'

/-- C5 (amended): the claim as stated is false — `safe_price` raises
`KeyError` for an instrument with neither price column and
`find_cointegrated_pairs` has no handler, so the instrument is not
excluded: whenever the universe contains such an instrument (and at least
two instruments, `max_pairs ≥ 1`), the scan either terminates with the
propagated error, or had already stopped at the early-exit bound before
evaluating any pair involving it.  It never completes the scan over the
remaining instruments with the bad instrument merely excluded. -/
theorem C5_missing_price_field {α : Type} [LinearOrderedField α] (adfP : List α → α)
    (entries : List (String × Frame α)) (significance : α) (max_pairs : Nat) (k : Nat)
    (hmax : 1 ≤ max_pairs) (hk : k < entries.length) (h2 : 2 ≤ entries.length)
    (hbad1 : (entries.getD k default).2.adjClose = none)
    (hbad2 : (entries.getD k default).2.close = none) :
    find_cointegrated_pairs adfP entries significance max_pairs = .error ()
    ∨ ∃ l, find_cointegrated_pairs adfP entries significance max_pairs = .ok l
        ∧ l.length = max_pairs := by
  have hbad : safe_price (entries.getD k default).2 = .error () := by
    unfold safe_price
    rw [hbad1, hbad2]
  apply scanGo_bad_entry adfP entries significance max_pairs k hbad
    (pairIndices entries.length) []
  · simp only [List.length_nil]
    omega
  · by_cases hk0 : k = 0
    · subst hk0
      exact ⟨(0, 1), pairIndices_mem_of (by omega) (by omega), Or.inl rfl⟩
    · exact ⟨(0, k), pairIndices_mem_of (by omega) (by omega), Or.inr rfl⟩

/-- C5, counterexample to the claim as stated: a universe of three
instruments where "C" has neither an adjusted-close nor a close column.
The scan evaluates ("A", "B") (skipped harmlessly: one-row alignment),
then reaches ("A", "C") where `safe_price` raises, and the whole scan
terminates with the error instead of completing over the remaining
instruments (which would return `.ok []`). -/
theorem C5_missing_price_field_counterexample :
    find_cointegrated_pairs (fun _ => (1 : ℚ))
      [("A", frameG), ("B", frameG), ("C", frameBad)] 0 10 = .error () := rfl

set_option maxRecDepth 100000 in
/-- Witness for C4 at a concrete two-instrument universe: with
`max_pairs = 10` the scan returns one candidate, and the proved
properties hold of it. -/
theorem C4_scan_output_witness :
    (1 ≤ 10)
    ∧ find_cointegrated_pairs (fun _ => (0 : ℚ)) [("A", frameZ), ("B", frameZ)] 1 10
        = .ok [("A", "B", 0)]
    ∧ (List.Sorted (fun a b : String × String × ℚ => a.2.2 ≤ b.2.2) [("A", "B", 0)]
      ∧ [(("A" : String), ("B" : String), (0 : ℚ))].length ≤ 10
      ∧ ∀ c ∈ [(("A" : String), ("B" : String), (0 : ℚ))], c.2.2 < 1
          ∧ ∃ i j sa sb, i < j ∧ j < [("A", frameZ), ("B", frameZ)].length
          ∧ safe_price ([("A", frameZ), ("B", frameZ)].getD i default).2 = .ok sa
          ∧ safe_price ([("A", frameZ), ("B", frameZ)].getD j default).2 = .ok sb
          ∧ 250 ≤ (alignSeries sa sb).length
          ∧ c = (([("A", frameZ), ("B", frameZ)].getD i default).1,
              ([("A", frameZ), ("B", frameZ)].getD j default).1,
              (fun _ => (0 : ℚ)) (olsResid ((alignSeries sa sb).map Prod.fst)
                ((alignSeries sa sb).map Prod.snd)))) := by
  have hok : find_cointegrated_pairs (fun _ => (0 : ℚ))
      [("A", frameZ), ("B", frameZ)] 1 10 = .ok [("A", "B", 0)] := rfl
  exact ⟨by omega, hok, C4_scan_output (fun _ => (0 : ℚ)) [("A", frameZ), ("B", frameZ)]
    1 10 [("A", "B", 0)] (by omega) hok⟩

/-- Witness for C5 at a concrete three-instrument universe with a bad
third instrument. -/
theorem C5_missing_price_field_witness :
    (1 ≤ 10) ∧ (2 < 3) ∧ (2 ≤ 3)
    ∧ (([("A", frameG), ("B", frameG), ("C", frameBad)].getD 2
        default).2.adjClose = none)
    ∧ (find_cointegrated_pairs (fun _ => (1 : ℚ))
        [("A", frameG), ("B", frameG), ("C", frameBad)] 0 10 = .error ()
      ∨ ∃ l, find_cointegrated_pairs (fun _ => (1 : ℚ))
          [("A", frameG), ("B", frameG), ("C", frameBad)] 0 10 = .ok l
          ∧ l.length = 10) := by
  refine ⟨by omega, by omega, by omega, rfl, ?_⟩
  exact C5_missing_price_field (fun _ => (1 : ℚ))
    [("A", frameG), ("B", frameG), ("C", frameBad)] 0 10 2
    (by omega) (by simp) (by simp) rfl rfl

/-! ## Claim C3: zero-variance spread is not guarded -/

/-- C3 (code evaluation at the failing input): on a degenerate pair with
`y = 2·x` exactly, the spread is identically zero, its standard deviation
is zero, every z-score is NaN (`none`) — and `backtest_pair` does *not*
report any failure: no guard exists, every NaN comparison is false, and
the backtest executes to completion, returning a flat capital trajectory
and an empty trade list.  This holds for any square root with
`sq 0 = 0`, which the real square root satisfies. -/
theorem C3_degenerate_spread_executes (sq : ℚ → ℚ) (h0 : sq 0 = 0) :
    backtest_pair sq [1, 2, 3, 4] [2, 4, 6, 8] 100000 1 (1/5)
      = ([100000, 100000, 100000, 100000], [0, 0, 0, 0], [none, none, none, none],
          2, []) := by
  have hbeta : olsBeta ([1, 2, 3, 4] : List ℚ) [2, 4, 6, 8] = 2 := by
    norm_num [olsBeta]
  have hsp : pipeSpread ([1, 2, 3, 4] : List ℚ) [2, 4, 6, 8] = [0, 0, 0, 0] := by
    simp only [pipeSpread, compute_spread, hbeta]
    norm_num
  have hsd : pipeSd sq ([1, 2, 3, 4] : List ℚ) [2, 4, 6, 8] = 0 := by
    rw [pipeSd, hsp]
    have hv : sampleVar ([0, 0, 0, 0] : List ℚ) = 0 := by
      norm_num [sampleVar, listMean]
    rw [hv, h0]
  have hz : pipeZ sq ([1, 2, 3, 4] : List ℚ) [2, 4, 6, 8]
      = [none, none, none, none] := by
    rw [pipeZ, hsp, hsd, zScores]
    simp
  have hrun : pipeRun sq ([1, 2, 3, 4] : List ℚ) [2, 4, 6, 8] 100000 1 (1/5)
      = btRun [0, 0, 0, 0] [none, none, none, none] 0 100000 1 (1/5) := by
    rw [pipeRun, hsp, hsd, hz]
  have hloop : btRun ([0, 0, 0, 0] : List ℚ) [none, none, none, none] 0 100000 1 (1/5)
      = ⟨0, 100000, [100000, 100000, 100000, 100000], [], none, none⟩ := by
    norm_num [btRun, btRunUpTo, btStep, btCore, btInit, nanGt, nanLt, List.range']
  simp only [backtest_pair, hrun, hloop, hsp, hz, compute_spread, hbeta]

/-- Witness instantiating C3's square-root hypothesis with the identity
function (which agrees with the real square root at `0`). -/
theorem C3_degenerate_spread_executes_witness :
    id (0 : ℚ) = 0
    ∧ backtest_pair (id : ℚ → ℚ) [1, 2, 3, 4] [2, 4, 6, 8] 100000 1 (1/5)
      = ([100000, 100000, 100000, 100000], [0, 0, 0, 0], [none, none, none, none],
          2, []) :=
  ⟨rfl, C3_degenerate_spread_executes id rfl⟩

/-! ## Claim C9: `compute_spread` on two identical series -/

/-- A sum of squared deviations is nonnegative. -/
theorem sum_sq_dev_nonneg {α : Type} [LinearOrderedField α] (l : List α) (m : α) :
    0 ≤ (l.map (fun v => (v - m) ^ 2)).sum := by
  induction l with
  | nil => simp
  | cons a l ih =>
    simp only [List.map_cons, List.sum_cons]
    exact add_nonneg (sq_nonneg _) ih

/-- A sum of squared deviations vanishes iff every element equals `m`. -/
theorem sum_sq_dev_eq_zero_iff {α : Type} [LinearOrderedField α] (l : List α) (m : α) :
    (l.map (fun v => (v - m) ^ 2)).sum = 0 ↔ ∀ v ∈ l, v = m := by
  induction l with
  | nil => simp
  | cons a l ih =>
    simp only [List.map_cons, List.sum_cons, List.mem_cons]
    rw [add_eq_zero_iff_of_nonneg (sq_nonneg _) (sum_sq_dev_nonneg l m), sq_eq_zero_iff,
      sub_eq_zero, ih]
    constructor
    · rintro ⟨ha, hl⟩ v hv
      rcases hv with rfl | hv
      · exact ha
      · exact hl v hv
    · intro h
      exact ⟨h a (Or.inl rfl), fun v hv => h v (Or.inr hv)⟩

/-- Expansion of a sum of squared deviations. -/
theorem sum_sq_dev_expand {α : Type} [LinearOrderedField α] (l : List α) (m : α) :
    (l.map (fun v => (v - m) ^ 2)).sum
      = (l.map (fun v => v ^ 2)).sum - 2 * m * l.sum + (l.length : α) * m ^ 2 := by
  induction l with
  | nil => simp
  | cons a l ih =>
    simp only [List.map_cons, List.sum_cons, List.length_cons, ih]
    push_cast
    ring

/-- The OLS denominator `n·Σx² − (Σx)²` equals `n` times the sum of
squared deviations from the mean. -/
theorem ols_denom_eq {α : Type} [LinearOrderedField α] (x : List α)
    (hn : (x.length : α) ≠ 0) :
    (x.length : α) * (x.map (fun v => v ^ 2)).sum - x.sum ^ 2
      = (x.length : α) * ((x.map (fun v => (v - listMean x) ^ 2)).sum) := by
  rw [sum_sq_dev_expand, listMean]
  field_simp
  ring

/-- Pointwise product `zipWith (·*·) x x` is the list of squares of `x`. -/
theorem zipWith_mul_self {α : Type} [LinearOrderedField α] (x : List α) :
    List.zipWith (· * ·) x x = x.map (fun v => v ^ 2) := by
  induction x with
  | nil => rfl
  | cons a l ih =>
    simp only [List.zipWith_cons_cons, List.map_cons, ih, pow_two]

/-- Pointwise `b - 1·a` on two copies of `x` is the all-zero list. -/
theorem zipWith_one_sub_self {α : Type} [LinearOrderedField α] (x : List α) :
    List.zipWith (fun a b => b - 1 * a) x x = List.replicate x.length 0 := by
  induction x with
  | nil => rfl
  | cons a l ih =>
    simp only [List.zipWith_cons_cons, List.length_cons, List.replicate_succ,
      one_mul, sub_self]
    exact congrArg (List.cons 0) (by simpa using ih)

/-- C9: `compute_spread(x, x)` on two identical copies of a non-constant
series of length at least 2 returns `beta = 1` and an identically zero
spread (`spread = y − beta·x` pointwise). -/
theorem C9_identical_series {α : Type} [LinearOrderedField α] (x : List α)
    (h2 : 2 ≤ x.length) (hnc : ∃ a ∈ x, ∃ b ∈ x, a ≠ b) :
    compute_spread x x = (List.replicate x.length 0, 1) := by
  have hn : (x.length : α) ≠ 0 := Nat.cast_ne_zero.mpr (by omega)
  have hdev : ((x.map (fun v => (v - listMean x) ^ 2)).sum) ≠ 0 := by
    intro hz
    obtain ⟨a, ha, b, hb, hab⟩ := hnc
    have hall := (sum_sq_dev_eq_zero_iff x (listMean x)).mp hz
    exact hab ((hall a ha).trans (hall b hb).symm)
  have hden : (x.length : α) * (x.map (fun v => v ^ 2)).sum - x.sum ^ 2 ≠ 0 := by
    rw [ols_denom_eq x hn]
    exact mul_ne_zero hn hdev
  have hbeta : olsBeta x x = 1 := by
    rw [olsBeta, zipWith_mul_self, ← pow_two]
    exact div_self hden
  simp only [compute_spread, hbeta]
  rw [zipWith_one_sub_self]

/-- Witness for C9 on the concrete series `[0, 1]`. -/
theorem C9_identical_series_witness :
    (2 ≤ ([(0 : ℚ), 1]).length) ∧ ((0 : ℚ) ≠ 1)
    ∧ compute_spread [(0 : ℚ), 1] [(0 : ℚ), 1] = (List.replicate 2 0, 1) := by
  refine ⟨by simp, by norm_num, ?_⟩
  exact C9_identical_series [(0 : ℚ), 1] (by simp)
    ⟨0, by simp, 1, by simp, by norm_num⟩

/-! ## Concrete test fixtures for the backtest claims

The pair `x = [1, 2, 3, 4, 5]`, `y = [3, 3, 6, 7, 11]` has OLS slope 2,
spread `[1, -1, 0, -1, 1]` (mean 0, sample variance 1), so with the
identity as the square root (exact at 1) the z-scores equal the spread,
and with `entry_z = 1/2`, `exit_z = 1/5` the run closes two LONG trades.
-/

/-- The spread of the concrete fixture pair. -/
theorem pipeSpreadW_eval :
    pipeSpread [(1 : ℚ), 2, 3, 4, 5] [3, 3, 6, 7, 11] = [1, -1, 0, -1, 1] := by
  have hbeta : olsBeta ([1, 2, 3, 4, 5] : List ℚ) [3, 3, 6, 7, 11] = 2 := by
    norm_num [olsBeta]
  simp only [pipeSpread, compute_spread, hbeta]
  norm_num

/-- The spread's sample variance is exactly 1. -/
theorem sampleVarW_eval : sampleVar ([1, -1, 0, -1, 1] : List ℚ) = 1 := by
  norm_num [sampleVar, listMean]

/-- Value of `spread.std()` of the fixture, with the identity square root. -/
theorem pipeSdW_eval :
    pipeSd (id : ℚ → ℚ) [1, 2, 3, 4, 5] [3, 3, 6, 7, 11] = 1 := by
  rw [pipeSd, pipeSpreadW_eval, sampleVarW_eval]
  rfl

/-- The z-score series of the fixture equals its spread. -/
theorem pipeZW_eval :
    pipeZ (id : ℚ → ℚ) [1, 2, 3, 4, 5] [3, 3, 6, 7, 11]
      = [some 1, some (-1), some 0, some (-1), some 1] := by
  rw [pipeZ, pipeSpreadW_eval, pipeSdW_eval, zScores]
  norm_num [listMean]

/-- Full evaluation of the loop on the fixture: two LONG trades with
profits 10000 and 20000, final capital 130000. -/
theorem btRunW_eval :
    btRun [(1 : ℚ), -1, 0, -1, 1] [some 1, some (-1), some 0, some (-1), some 1]
        1 100000 (1/2) (1/5)
      = ⟨0, 130000, [100000, 100000, 110000, 110000, 130000],
          [⟨1, 2, Side.LONG, -1, 0, 10000, some (-1), some 0⟩,
           ⟨3, 4, Side.LONG, -1, 1, 20000, some (-1), some 1⟩], none, none⟩ := by
  norm_num [btRun, btRunUpTo, btStep, btCore, btInit, nanGt, nanLt, List.range']

/-- The pipeline run on the fixture reduces to the loop evaluation. -/
theorem pipeRunW_eval :
    pipeRun (id : ℚ → ℚ) [1, 2, 3, 4, 5] [3, 3, 6, 7, 11] 100000 (1/2) (1/5)
      = ⟨0, 130000, [100000, 100000, 110000, 110000, 130000],
          [⟨1, 2, Side.LONG, -1, 0, 10000, some (-1), some 0⟩,
           ⟨3, 4, Side.LONG, -1, 1, 20000, some (-1), some 1⟩], none, none⟩ := by
  rw [pipeRun, pipeSpreadW_eval, pipeSdW_eval, pipeZW_eval, btRunW_eval]

/-- Witness for C1: at step 1 of the loop fixture, the FLAT state with
`z_1 = -1 < -entry_z` transitions to LONG_SPREAD, recording the entry
timestamp. -/
theorem C1_transitions_witness :
    ((0 : ℚ) ≤ 1/2)
    ∧ (([some 1, some (-1), some 0, some (-1), some 1] : List (Option ℚ)).getD (0 + 1)
        none = some (-1))
    ∧ (btRunUpTo [(1 : ℚ), -1, 0, -1, 1] [some 1, some (-1), some 0, some (-1), some 1]
        1 100000 (1/2) (1/5) (0 + 1)).position = 1
    ∧ (btRunUpTo [(1 : ℚ), -1, 0, -1, 1] [some 1, some (-1), some 0, some (-1), some 1]
        1 100000 (1/2) (1/5) (0 + 1)).entry_date = some (0 + 1) := by
  have h := C1_transitions [(1 : ℚ), -1, 0, -1, 1]
    [some 1, some (-1), some 0, some (-1), some 1] 1 100000 (1/2) (1/5) 0 (-1)
    (by simp) rfl (by norm_num)
  have h2 := h.2.1 ⟨rfl, by norm_num⟩
  exact ⟨by norm_num, rfl, h2.1, h2.2.2.1⟩

/-- Witness for C10: the fixture's first trade entered at step 1 and
exited at step 2. -/
theorem C10_entry_before_exit_witness :
    ((⟨1, 2, Side.LONG, -1, 0, 10000, some (-1), some 0⟩ : Trade ℚ)
      ∈ (btRun [(1 : ℚ), -1, 0, -1, 1] [some 1, some (-1), some 0, some (-1), some 1]
          1 100000 (1/2) (1/5)).trades)
    ∧ (1 : Nat) < 2 := by
  have hm : (⟨1, 2, Side.LONG, -1, 0, 10000, some (-1), some 0⟩ : Trade ℚ)
      ∈ (btRun [(1 : ℚ), -1, 0, -1, 1] [some 1, some (-1), some 0, some (-1), some 1]
          1 100000 (1/2) (1/5)).trades := by
    rw [btRunW_eval]
    simp
  exact ⟨hm, C10_entry_before_exit [(1 : ℚ), -1, 0, -1, 1]
    [some 1, some (-1), some 0, some (-1), some 1] 1 100000 (1/2) (1/5) _ hm⟩

/-- Witness for C2: the fixture's first trade realizes
`(spread_exit − spread_entry) × (size / std) = (0 − (−1)) × 10000`. -/
theorem C2_profit_formula_witness :
    ((⟨1, 2, Side.LONG, -1, 0, 10000, some (-1), some 0⟩ : Trade ℚ)
      ∈ (backtest_pair (id : ℚ → ℚ) [1, 2, 3, 4, 5] [3, 3, 6, 7, 11] 100000
          (1/2) (1/5)).2.2.2.2)
    ∧ (10000 : ℚ) = ((0 : ℚ) - (-1)) * (100000 * (1/10)
        / id (sampleVar (compute_spread [(1 : ℚ), 2, 3, 4, 5] [3, 3, 6, 7, 11]).1)) := by
  have hm : (⟨1, 2, Side.LONG, -1, 0, 10000, some (-1), some 0⟩ : Trade ℚ)
      ∈ (backtest_pair (id : ℚ → ℚ) [1, 2, 3, 4, 5] [3, 3, 6, 7, 11] 100000
          (1/2) (1/5)).2.2.2.2 := by
    show _ ∈ (pipeRun (id : ℚ → ℚ) [1, 2, 3, 4, 5] [3, 3, 6, 7, 11] 100000
      (1/2) (1/5)).trades
    rw [pipeRunW_eval]
    simp
  exact ⟨hm, (C2_profit_formula id [1, 2, 3, 4, 5] [3, 3, 6, 7, 11] 100000 (1/2) (1/5)
    _ hm).1 rfl⟩

/-- Witness for C7: on the fixture the final trajectory value 130000 is
the initial 100000 plus the two realized profits. -/
theorem C7_final_capital_witness :
    (backtest_pair (id : ℚ → ℚ) [1, 2, 3, 4, 5] [3, 3, 6, 7, 11] 100000
        (1/2) (1/5)).1.getLastD 0
      = 100000 + (((backtest_pair (id : ℚ → ℚ) [1, 2, 3, 4, 5] [3, 3, 6, 7, 11] 100000
          (1/2) (1/5)).2.2.2.2).map Trade.profit).sum
    ∧ (backtest_pair (id : ℚ → ℚ) [1, 2, 3, 4, 5] [3, 3, 6, 7, 11] 100000
        (1/2) (1/5)).1.getLastD 0 = 130000 := by
  refine ⟨(C7_final_capital id [1, 2, 3, 4, 5] [3, 3, 6, 7, 11] 100000 (1/2) (1/5)).1, ?_⟩
  show (pipeRun (id : ℚ → ℚ) [1, 2, 3, 4, 5] [3, 3, 6, 7, 11] 100000
    (1/2) (1/5)).pnl.getLastD 0 = 130000
  rw [pipeRunW_eval]
  rfl

/-- Witness for C6 on the fixture: the trajectory has 5 values (one per
z-score observation) and starts at the initial capital. -/
theorem C6_trajectory_shape_witness :
    (1 ≤ (pipeZ (id : ℚ → ℚ) [1, 2, 3, 4, 5] [3, 3, 6, 7, 11]).length)
    ∧ (backtest_pair (id : ℚ → ℚ) [1, 2, 3, 4, 5] [3, 3, 6, 7, 11] 100000
        (1/2) (1/5)).1.length
      = (backtest_pair (id : ℚ → ℚ) [1, 2, 3, 4, 5] [3, 3, 6, 7, 11] 100000
        (1/2) (1/5)).2.2.1.length
    ∧ (backtest_pair (id : ℚ → ℚ) [1, 2, 3, 4, 5] [3, 3, 6, 7, 11] 100000
        (1/2) (1/5)).1.head? = some 100000 := by
  have hlen : 1 ≤ (pipeZ (id : ℚ → ℚ) [1, 2, 3, 4, 5] [3, 3, 6, 7, 11]).length := by
    rw [pipeZW_eval]
    simp
  have h := C6_trajectory_shape id [1, 2, 3, 4, 5] [3, 3, 6, 7, 11] 100000 (1/2)
    (1/5) hlen
  exact ⟨hlen, h.1, h.2.1⟩
